import Mathlib

/-!
# Verification of the vault-mind collection control plane

A shallow embedding of the parts of `backend/services/job_queue.py`,
`backend/services/collection_manager.py`, `backend/services/vault_service.py`
and `backend/indexer/text_chunker.py` that the specification talks about,
together with theorems settling the spec's claims against the code.

Conventions of the embedding:
* SQLite tables and Python dicts of rows become Lean lists of records,
  keyed by their id field (primary keys are unique, so map/find over the
  list is faithful).
* `datetime` / `time.time()` timestamps become `Nat` (ticks) or `ℚ`
  (seconds, where the code compares fractional times).
* Python floats in score arithmetic become `ℚ` (exact field model).
* Strings are Lean `String` except where character positions matter
  (text chunking, path handling), where `List Char` is used.
-/

namespace VaultMind

/-- Job execution status enumeration (`JobStatus` in `job_queue.py`). -/
inductive JobStatus where
  | pending
  | queued
  | running
  | paused
  | completed
  | failed
  | cancelled
deriving DecidableEq, Repr

/-- The terminal statuses `[COMPLETED, FAILED, CANCELLED]` used by
`update_job_progress` and `cancel_job`. -/
def JobStatus.isTerminal : JobStatus → Bool
  | .completed => true
  | .failed => true
  | .cancelled => true
  | _ => false

/-- A row of the `jobs` table / the `Job` dataclass of `job_queue.py`.
`progress_data`, `error_message` and `data` are opaque payloads here. -/
structure Job where
  id : String
  job_type : String
  collection_name : String
  status : JobStatus
  created_at : Nat
  started_at : Option Nat := none
  completed_at : Option Nat := none
  progress_data : Option String := none
  error_message : Option String := none
  priority : Int := 0
deriving DecidableEq, Repr

/-! ## `JobQueue.__init__` / `_init_job_db` (claim C2)

`_init_job_db` runs only `CREATE TABLE IF NOT EXISTS jobs (...)` and three
`CREATE INDEX IF NOT EXISTS` statements.  On a database that already holds
rows it therefore changes no row: there is no `UPDATE`/`DELETE` in it, and
in particular no demotion of `running` rows.  Its action on the persisted
row set is the identity. -/

/-- Effect of `JobQueue._init_job_db` on the persisted rows of `jobs.db`
(schema creation only; no row is read or written). -/
def init_job_db (persisted : List Job) : List Job := persisted

/-- The in-memory state a `JobQueue` holds besides the database
(`job_queue.py`, `JobQueue.__init__`). -/
structure QueueState where
  max_concurrent_jobs : Nat
  /-- rows of `jobs.db` -/
  table : List Job
  /-- `self.active_jobs`, the in-memory job dict, keyed by job id -/
  active_jobs : List Job
deriving DecidableEq, Repr

/-- `JobQueue.__init__(max_concurrent_jobs)`: store the limit, run
`_init_job_db`, and start with empty in-memory tracking dicts. -/
def jobQueueInit (maxConc : Nat) (persisted : List Job) : QueueState :=
  { max_concurrent_jobs := maxConc
    table := init_job_db persisted
    active_jobs := [] }

/-! ## `update_job_progress` and `cancel_job` (claim C3) -/

/-- The body of `update_job_progress` applied to the found job: set
`progress_data`, and if a status was passed, set it unconditionally,
recording `started_at` on a first `RUNNING` and `completed_at` on a
terminal status (the `if/elif` of lines 245-250 of `job_queue.py`). -/
def applyProgressUpdate (j : Job) (progress : String) (status : Option JobStatus)
    (now : Nat) : Job :=
  let j1 := { j with progress_data := some progress }
  match status with
  | none => j1
  | some st =>
    let j2 := { j1 with status := st }
    if st = JobStatus.running ∧ j2.started_at = none then
      { j2 with started_at := some now }
    else if st.isTerminal then
      { j2 with completed_at := some now }
    else j2

/-- `JobQueue.update_job_progress(job_id, progress_data, status)`: if the
job id is tracked in `active_jobs` update that job (in memory and in the
database row, which stores the same fields); otherwise do nothing. -/
def update_job_progress (jobs : List Job) (jobId : String) (progress : String)
    (status : Option JobStatus) (now : Nat) : List Job :=
  jobs.map fun j => if j.id = jobId then applyProgressUpdate j progress status now else j

/-- `JobQueue.cancel_job(job_id)`: `False` when the job is unknown or
already terminal; otherwise set status `CANCELLED` with `completed_at`
and return `True`. -/
def cancel_job (jobs : List Job) (jobId : String) (now : Nat) : Bool × List Job :=
  match jobs.find? (fun j => j.id = jobId) with
  | none => (false, jobs)
  | some j =>
    if j.status.isTerminal then (false, jobs)
    else (true, jobs.map fun k =>
      if k.id = jobId then { k with status := JobStatus.cancelled, completed_at := some now }
      else k)

/-! ## The dispatcher: `_process_next_jobs` / `_get_next_jobs` (claim C1)

`_get_next_jobs(limit)` runs
`SELECT * FROM jobs WHERE status IN ('pending','queued')
 ORDER BY priority DESC, created_at ASC LIMIT ?`.
The `ORDER BY` is modelled by a stable insertion sort under the composite
key (the counterexamples below use rows with distinct keys, so tie order
is irrelevant).  The in-memory `active_jobs` dict mirrors the statuses of
the table rows (every status change writes both), so both the running
count of `_process_next_jobs` and the selection are taken over `table`. -/

/-- The `ORDER BY priority DESC, created_at ASC` ordering on job rows. -/
def jobOrder (j k : Job) : Prop :=
  k.priority < j.priority ∨ (j.priority = k.priority ∧ j.created_at ≤ k.created_at)

instance : DecidableRel jobOrder := fun _ _ => by
  unfold jobOrder; infer_instance

instance : IsTotal Job jobOrder where
  total j k := by
    unfold jobOrder
    rcases lt_trichotomy j.priority k.priority with h | h | h
    · exact Or.inr (Or.inl h)
    · rcases Nat.le_total j.created_at k.created_at with h2 | h2
      · exact Or.inl (Or.inr ⟨h, h2⟩)
      · exact Or.inr (Or.inr ⟨h.symm, h2⟩)
    · exact Or.inl (Or.inl h)

instance : IsTrans Job jobOrder where
  trans j k m h1 h2 := by
    unfold jobOrder at h1 h2 ⊢
    rcases h1 with h1 | ⟨h1, h1b⟩ <;> rcases h2 with h2 | ⟨h2, h2b⟩
    · exact Or.inl (h2.trans h1)
    · exact Or.inl (h2 ▸ h1)
    · exact Or.inl (h1 ▸ h2)
    · exact Or.inr ⟨h1.trans h2, h1b.trans h2b⟩

/-- `JobQueue._get_next_jobs(limit)`: pending/queued rows, ordered by
`(priority DESC, created_at ASC)`, first `limit` of them.  There is no
condition on the job's collection. -/
def get_next_jobs (table : List Job) (limit : Nat) : List Job :=
  ((table.filter fun j =>
      decide (j.status = JobStatus.pending ∨ j.status = JobStatus.queued)).insertionSort
    jobOrder).take limit

/-- `JobQueue._start_job_execution(job)`: mark the row running and stamp
`started_at` (the spawned worker task is outside this model). -/
def start_job_execution (table : List Job) (jobId : String) (now : Nat) : List Job :=
  table.map fun k =>
    if k.id = jobId then { k with status := JobStatus.running, started_at := some now } else k

/-- Number of rows whose status is `RUNNING`. -/
def countRunning (jobs : List Job) : Nat :=
  jobs.countP fun j => decide (j.status = JobStatus.running)

/-- `JobQueue._process_next_jobs`: if slots are free, promote the next
`available_slots` jobs returned by `_get_next_jobs` to running. -/
def process_next_jobs (maxConc : Nat) (now : Nat) (table : List Job) : List Job :=
  let running := countRunning table
  if maxConc ≤ running then table
  else (get_next_jobs table (maxConc - running)).foldl
    (fun t j => start_job_execution t j.id now) table

/-- The "active" statuses `{pending, queued, running, paused}`. -/
def JobStatus.isActive : JobStatus → Bool
  | .pending => true
  | .queued => true
  | .running => true
  | .paused => true
  | _ => false

/-- Number of jobs of collection `c` in an active status. -/
def countActiveFor (c : String) (jobs : List Job) : Nat :=
  jobs.countP fun j => decide (j.collection_name = c) && j.status.isActive

/-! ## Collection manager: counters after success (claim C4) -/

/-- A row of the `collections` metadata table (`collection_manager.py`,
`_init_metadata_db`).  Only the fields the claims touch are kept typed;
`config_json` is opaque. -/
structure CollectionRow where
  name : String
  vault_path : String
  document_count : Nat := 0
  size_bytes : Nat := 0
  status : String := "created"
  health_status : String := "unknown"
  last_indexed_at : Option Nat := none
  updated_at : Option Nat := none
  error_message : Option String := none
deriving DecidableEq, Repr

/-- `CollectionManager._calculate_collection_size(collection_name,
document_count)`.  `chromaCount = some a` models a successful
`get_collection_health` call whose dict yields `document_count` `a`
(missing key ⟹ `a = 0`); `none` models the call raising, which takes the
fallback branch.  The per-chunk estimate is the fixed 2048. -/
def calculate_collection_size (document_count : Nat) (chromaCount : Option Nat) : Nat :=
  match chromaCount with
  | some actual => max document_count actual * 2048
  | none => document_count * 2048

/-- The `UPDATE collections SET ...` that `_handle_reindex_collection_job`
performs when the vault job reports `completed`
(`collection_manager.py` lines 928-935). -/
def reindexSuccessUpdate (row : CollectionRow) (documents_created : Nat)
    (chromaCount : Option Nat) (now : Nat) : CollectionRow :=
  { row with
    status := "active"
    last_indexed_at := some now
    document_count := documents_created
    updated_at := some now
    size_bytes := calculate_collection_size documents_created chromaCount
    health_status := if documents_created > 0 then "healthy" else "empty" }

/-- The corresponding `UPDATE` in `_handle_create_collection_job`
(lines 829-834); identical except that it does not touch `updated_at`. -/
def createSuccessUpdate (row : CollectionRow) (documents_created : Nat)
    (chromaCount : Option Nat) (now : Nat) : CollectionRow :=
  { row with
    status := "active"
    last_indexed_at := some now
    document_count := documents_created
    size_bytes := calculate_collection_size documents_created chromaCount
    health_status := if documents_created > 0 then "healthy" else "empty" }

/-! ## Derived observable status (claim C5) -/

/-- `JobQueue.get_active_job_for_collection`: first job in the
`active_jobs` dict (insertion order) for this collection whose status is
in `{PENDING, QUEUED, RUNNING, PAUSED}`. -/
def get_active_job_for_collection (jobs : List Job) (c : String) : Option Job :=
  jobs.find? fun j => decide (j.collection_name = c) && j.status.isActive

/-- `CollectionManager._determine_collection_status(collection_name,
stored_status)`: map the active job's type to a display status; any other
case falls through to the stored status. -/
def determine_collection_status (jobs : List Job) (c : String) (stored : String) : String :=
  match get_active_job_for_collection jobs c with
  | some job =>
    if job.job_type = "create_collection" then "indexing"
    else if job.job_type = "reindex_collection" then "reindexing"
    else if job.job_type = "delete_collection" then "deleting"
    else stored
  | none => stored

/-- `CollectionManager.reindex_collection` admission (lines 603-634),
restricted to its effect on the job table: refuse when an active job
exists and `force` is false; refuse when no queue slot is free
(`available_slots = max(0, max_concurrent - running)`); otherwise create
a pending `reindex_collection` job.  The collection-existence check that
precedes these is outside the job table. -/
def reindex_collection (maxConc : Nat) (jobs : List Job) (c : String) (force : Bool)
    (newJobId : String) (now : Nat) : Except String (List Job) :=
  if (get_active_job_for_collection jobs c).isSome ∧ force = false then
    Except.error "Indexing already in progress"
  else if max 0 (maxConc - countRunning jobs) = 0 then
    Except.error "Job queue is full"
  else
    Except.ok (jobs ++
      [{ id := newJobId, job_type := "reindex_collection", collection_name := c,
         status := JobStatus.pending, created_at := now }])

/-! ## Deletion confirmation tokens (claim C9) -/

/-- A value of the in-memory `_confirmation_tokens` dict. -/
structure TokenData where
  collection_name : String
  expires_at : ℚ
deriving DecidableEq, Repr

/-- The collection-manager state the deletion path touches: the metadata
rows, the token dict (keyed by token string) and the job table. -/
structure MgrState where
  collections : List CollectionRow
  tokens : List (String × TokenData)
  jobs : List Job
deriving DecidableEq, Repr

/-- Dict lookup in `_confirmation_tokens`. -/
def lookupToken (tokens : List (String × TokenData)) (token : String) : Option TokenData :=
  (tokens.find? fun p => p.1 = token).map Prod.snd

/-- `CollectionManager._store_confirmation_token`: store the token with
`expires_at = time.time() + 300`. -/
def store_confirmation_token (st : MgrState) (now : ℚ) (c token : String) : MgrState :=
  { st with tokens := (token, ⟨c, now + 300⟩) :: st.tokens.filter fun p => p.1 ≠ token }

/-- `CollectionManager._validate_confirmation_token`: unknown token ⟹
`False`; wrong collection ⟹ `False`; expired (`time.time() > expires_at`)
⟹ delete the entry and `False`; otherwise `True`.  Returns the possibly
cleaned-up state. -/
def validate_confirmation_token (st : MgrState) (now : ℚ) (c token : String) :
    Bool × MgrState :=
  match lookupToken st.tokens token with
  | none => (false, st)
  | some td =>
    if td.collection_name ≠ c then (false, st)
    else if now > td.expires_at then
      (false, { st with tokens := st.tokens.filter fun p => p.1 ≠ token })
    else (true, st)

/-- `CollectionManager._collection_exists`. -/
def collection_exists (st : MgrState) (c : String) : Bool :=
  st.collections.any fun row => row.name = c

/-- `CollectionManager.delete_collection(collection_name,
confirmation_token)`: check existence, validate the token, then
`job_queue.create_job("delete_collection", ...)` (a fresh pending row with
id `newJobId`).  Nothing removes the token from `_confirmation_tokens`.
Errors raise `ValueError`, modelled as `Except.error`. -/
def delete_collection (st : MgrState) (now : ℚ) (c token newJobId : String)
    (jobCreatedAt : Nat) : Except String String × MgrState :=
  if ¬ collection_exists st c then (Except.error "not found", st)
  else
    let v := validate_confirmation_token st now c token
    if ¬ v.1 then (Except.error "invalid or expired confirmation token", v.2)
    else
      (Except.ok newJobId,
        { v.2 with jobs := v.2.jobs ++
            [{ id := newJobId, job_type := "delete_collection", collection_name := c,
               status := JobStatus.pending, created_at := jobCreatedAt }] })

/-! ## Chunk document ids (claim C6)

`vault_service.py` builds each stored chunk id as the f-string
`f"{vault_name}_{file_path.stem}_{chunk_idx}"` — both in
`_process_vault_indexing` (line 230) and `_process_file_updates`
(line 874).  We model strings as `List Char` here because `Path.stem`
works on character positions. -/

/-- Worker for `natRepr` with an explicit recursion budget (one decimal
division per step, so any budget above the number itself suffices). -/
def natReprAux : Nat → Nat → List Char
  | 0, _ => []
  | fuel + 1, n =>
    if n < 10 then [Nat.digitChar n]
    else natReprAux fuel (n / 10) ++ [Nat.digitChar (n % 10)]

/-- Decimal rendering of a natural number, as Python's `f"{n}"` writes it
(the digit characters most-significant first). -/
def natRepr (n : Nat) : List Char := natReprAux (n + 1) n

/-- Index of the last occurrence of `c` in `l` (Python `str.rfind`),
`none` when absent. -/
def rfindIdx (l : List Char) (c : Char) : Option Nat :=
  (l.reverse.findIdx? fun d => d = c).map fun k => l.length - 1 - k

/-- `pathlib.PurePath.name` for a POSIX-style path: the part after the
last `/`. -/
def pathName (p : List Char) : List Char :=
  (p.splitOn '/').getLastD []

/-- `pathlib.PurePath.stem`: the name without its suffix, where the
suffix is `name[i:]` for `i = name.rfind('.')` when `0 < i < len - 1`,
and empty otherwise. -/
def pyStem (p : List Char) : List Char :=
  let name := pathName p
  match rfindIdx name '.' with
  | some i => if 0 < i ∧ i < name.length - 1 then name.take i else name
  | none => name

/-- The chunk document id `f"{vault_name}_{file_path.stem}_{chunk_idx}"`. -/
def doc_id (vault : List Char) (path : List Char) (chunkIdx : Nat) : List Char :=
  vault ++ ['_'] ++ pyStem path ++ ['_'] ++ natRepr chunkIdx

/-! ## Query path: `search_vault` (claims C7, C8)

`search_vault` asks the store for `min(limit * 2, 100)` neighbours, then
post-processes the reply.  The vector store itself is external, so the
post-processing is modelled as a function of the store's reply (`hits`:
ids, documents, metadata tags, distances, zipped per hit).  The optional
`context` attachment (`_get_context`) only adds a field to a kept result
and never changes which results are kept, their scores or their order; it
is another store read and is not modelled. -/

/-- `n_results = min(limit * 2, 100)` (line 371 of `vault_service.py`). -/
def nResults (limit : Nat) : Nat := min (limit * 2) 100

/-- One hit of the store's reply, as consumed by the processing loop:
id, document text, the tag metadata `_matches_tag_filters` reads, and the
distance. -/
structure QueryHit where
  id : Nat
  doc : String
  content_tags : List String
  frontmatter_tags : List String
  distance : ℚ
deriving DecidableEq, Repr

/-- The `tag_filters` dict with its `include_tags` / `exclude_tags`. -/
structure TagFilters where
  include_tags : List String := []
  exclude_tags : List String := []
deriving DecidableEq, Repr

/-- Python `str.lower()` (ASCII case folding, which is all the repo's
tags use). -/
def pyLower (s : String) : String := String.mk (s.data.map Char.toLower)

/-- Python's `needle in hay` on strings: contiguous-substring test. -/
def containsSub (hay needle : List Char) : Bool :=
  match hay with
  | [] => needle.isEmpty
  | _ :: rest => needle.isPrefixOf hay || containsSub rest needle

/-- `tag.lower().startswith(ft.lower()) or ft.lower() in tag.lower()` —
the per-tag test of `_matches_tag_filters`. -/
def tagHitTest (filterTag tag : String) : Bool :=
  (pyLower filterTag).data.isPrefixOf (pyLower tag).data
    || containsSub (pyLower tag).data (pyLower filterTag).data

/-- `VaultService._matches_tag_filters(metadata, tag_filters)`.
`all_tags = list(set(content_tags + frontmatter_tags))`; the dedup cannot
change the truth of the `any`, so the concatenation is used directly. -/
def matches_tag_filters (h : QueryHit) (tf : TagFilters) : Bool :=
  let all_tags := h.content_tags ++ h.frontmatter_tags
  let includeOk :=
    tf.include_tags.isEmpty
      || tf.include_tags.any fun ft => all_tags.any fun tag => tagHitTest ft tag
  let excludeBad :=
    !tf.exclude_tags.isEmpty
      && tf.exclude_tags.any fun ft => all_tags.any fun tag => tagHitTest ft tag
  includeOk && !excludeBad

/-- A processed result of `search_vault` (the dict of line 389, minus the
optional `context`). -/
structure SearchResult where
  id : Nat
  doc : String
  similarity_score : ℚ
deriving DecidableEq, Repr

/-- `similarity_score = 1 - distance` — no clamping (line 382). -/
def toResult (h : QueryHit) : SearchResult :=
  { id := h.id, doc := h.doc, similarity_score := 1 - h.distance }

/-- The body of the processing loop: keep a hit iff
`similarity_score >= similarity_threshold` and, when `tag_filters` is
passed (a non-empty dict), `_matches_tag_filters` accepts it. -/
def keepHit (threshold : ℚ) (tf : Option TagFilters) (h : QueryHit) : Bool :=
  decide (threshold ≤ 1 - h.distance)
    && (match tf with
        | none => true
        | some f => matches_tag_filters h f)

/-- Python's `list.sort(key=..., reverse=True)` is stable; a stable sort
is unique given the key order, so the insertion sort under this relation
reproduces it: descending score, ties in construction order. -/
def scoreOrder (x y : SearchResult) : Prop :=
  y.similarity_score ≤ x.similarity_score

instance : DecidableRel scoreOrder := fun _ _ => by
  unfold scoreOrder; infer_instance

instance : IsTotal SearchResult scoreOrder where
  total x y := le_total y.similarity_score x.similarity_score

instance : IsTrans SearchResult scoreOrder where
  trans _ _ _ h1 h2 := le_trans h2 h1

/-- The result-construction of `search_vault` (lines 375-403): filter by
threshold and tags in reply order, sort by `similarity_score` descending
(stable), truncate to `limit`. -/
def search_vault_process (limit : Nat) (threshold : ℚ) (tf : Option TagFilters)
    (hits : List QueryHit) : List SearchResult :=
  ((((hits.filter (keepHit threshold tf)).map toResult).insertionSort scoreOrder).take limit)

/-- The spec's wording of step 4 of the query path: `s = 1 − d` *clamped
to [0,1]*.  Stated only to compare with `search_vault_process`, which
does not clamp. -/
def toResultClamped (h : QueryHit) : SearchResult :=
  { id := h.id, doc := h.doc,
    similarity_score := max 0 (min 1 (1 - h.distance)) }

/-- The query-path result construction as the spec words it (clamped
similarity), for the comparison in claim C7. -/
def searchProcessSpec (limit : Nat) (threshold : ℚ) (tf : Option TagFilters)
    (hits : List QueryHit) : List SearchResult :=
  ((((hits.filter fun h =>
        decide (threshold ≤ (toResultClamped h).similarity_score)
          && (match tf with
              | none => true
              | some f => matches_tag_filters h f)).map toResultClamped).insertionSort
    scoreOrder).take limit)

/-! ## Text chunker (claim C10)

Embedding of `indexer/text_chunker.py`.  Strings are `List Char`,
positions are `Nat`.  The three regular expressions of the chunker
(`[.!?]+\s+`, `\n\s*\n` and the lazy fenced-code pattern) are simple
enough that their `finditer` semantics (leftmost match, greedy/lazy
quantifiers, non-overlapping continuation) is written out directly as
character scanners. -/

/-- Python's whitespace class (`str.strip`, `str.split`, regex `\s`),
restricted to the ASCII range the repository's text uses. -/
def pyWs (c : Char) : Bool :=
  c = ' ' || c = '\t' || c = '\n' || c = '\r' || c = '\x0B' || c = '\x0C'

/-- Python `str.strip()`. -/
def pyStrip (l : List Char) : List Char :=
  ((l.dropWhile pyWs).reverse.dropWhile pyWs).reverse

/-- Python slice `text[a:b]` for `0 ≤ a ≤ b`. -/
def slice (l : List Char) (a b : Nat) : List Char := (l.take b).drop a

/-- The backtick character. -/
def backtick : Char := Char.ofNat 96

/-- Does a fenced-code delimiter (three backticks) occur at position `i`? -/
def tripleAt (t : List Char) (i : Nat) : Bool :=
  [backtick, backtick, backtick].isPrefixOf (t.drop i)

/-- First position at or after `e` carrying a code-fence delimiter
(positions at or beyond the end of the text cannot carry one). -/
def findTripleFrom (t : List Char) (e : Nat) : Option Nat :=
  (List.range' e (t.length - e)).find? fun x => tripleAt t x

/-- `finditer` of the lazy pattern `(three backticks)[\s\S]*?(three
backticks)` starting the scan at position `i`: a match starts at a fence
that has a later closing fence, the lazy body ends at the earliest close,
matches do not overlap, and a fence with no close advances the scan one
position (as the regex engine retries the next start). -/
def code_block_matches (t : List Char) (i : Nat) : List (Nat × Nat) :=
  if _h : i < t.length then
    if tripleAt t i then
      match hfind : findTripleFrom t (i + 3) with
      | some e => (i, e + 3) :: code_block_matches t (e + 3)
      | none => code_block_matches t (i + 1)
    else code_block_matches t (i + 1)
  else []
termination_by t.length - i
decreasing_by
  · have h1 : e ∈ List.range' (i + 3) (t.length - (i + 3)) :=
      List.mem_of_find?_eq_some hfind
    have h2 := List.mem_range'_1.mp h1
    omega
  · omega
  · omega

/-- Length of the maximal whitespace prefix of `l`. -/
def wsRunLen : List Char → Nat
  | [] => 0
  | c :: rest => if pyWs c then wsRunLen rest + 1 else 0

/-- Index of the last occurrence of `c` among the first `bound`
characters of `l`. -/
def lastNlBefore (l : List Char) (bound : Nat) : Option Nat :=
  rfindIdx (l.take bound) '\n'

/-- `finditer` of `\n\s*\n` (greedy `\s*`) from position `i`: at a
newline, the greedy body takes the longest whitespace run that still ends
just before another newline; matches do not overlap; a failed start
advances the scan one position. -/
def para_matches (t : List Char) (i : Nat) : List (Nat × Nat) :=
  if _h : i < t.length then
    if t.getD i ' ' = '\n' then
      let k := wsRunLen (t.drop (i + 1))
      match lastNlBefore (t.drop (i + 1)) k with
      | some j => (i, i + 1 + j + 1) :: para_matches t (i + 1 + j + 1)
      | none => para_matches t (i + 1)
    else para_matches t (i + 1)
  else []
termination_by t.length - i

/-- Is `c` one of `.`, `!`, `?`. -/
def isPunct (c : Char) : Bool := c = '.' || c = '!' || c = '?'

/-- Length of the maximal sentence-punctuation prefix of `l`. -/
def punctRunLen : List Char → Nat
  | [] => 0
  | c :: rest => if isPunct c then punctRunLen rest + 1 else 0

/-- `finditer` of `[.!?]+\s+` from position `i`: both quantifiers are
greedy over disjoint character classes, so a match at `i` is the maximal
punctuation run followed by a non-empty maximal whitespace run. -/
def sent_matches (t : List Char) (i : Nat) : List (Nat × Nat) :=
  if _h : i < t.length then
    if isPunct (t.getD i ' ') then
      if _hw : 0 < wsRunLen (t.drop (i + punctRunLen (t.drop i))) then
        (i, i + punctRunLen (t.drop i) + wsRunLen (t.drop (i + punctRunLen (t.drop i))))
          :: sent_matches t
            (i + punctRunLen (t.drop i) + wsRunLen (t.drop (i + punctRunLen (t.drop i))))
      else sent_matches t (i + 1)
    else sent_matches t (i + 1)
  else []
termination_by t.length - i

/-- Accumulator-style worker for `pySplit`. -/
def pySplitAux (cur : List Char) : List Char → List (List Char)
  | [] => if cur.isEmpty then [] else [cur.reverse]
  | c :: rest =>
    if pyWs c then
      if cur.isEmpty then pySplitAux [] rest else cur.reverse :: pySplitAux [] rest
    else pySplitAux (c :: cur) rest

/-- Python `str.split()` with no argument: split on whitespace runs,
dropping empty pieces. -/
def pySplit (l : List Char) : List (List Char) := pySplitAux [] l

/-- Python `str.rfind(needle)`: the largest index at which `needle`
occurs in `hay` (as `Option`; the caller treats `none` as `-1`). -/
def rfindSub (hay needle : List Char) : Option Nat :=
  (((List.range (hay.length + 1)).filter fun i => needle.isPrefixOf (hay.drop i)).getLast?)

/-- The code-block loop at the top of `_find_best_break_point`: return
the block end when the chunk starts inside a block that fits within 120%
of the chunk size; return the block start when breaking would land inside
the block.  Python's float literal `1.2` is the exact `12/10` here; claim
C10 does not depend on the boundary of this comparison. -/
def codeBlockLoop (chunk_size tlen start_pos max_end_pos : Nat) :
    List (Nat × Nat) → Option Nat
  | [] => none
  | (bs, be) :: rest =>
    if bs ≤ start_pos ∧ start_pos < be ∧ be ≤ tlen then
      if ((be - start_pos : Nat) : ℚ) ≤ (chunk_size : ℚ) * (12 / 10) then some be
      else codeBlockLoop chunk_size tlen start_pos max_end_pos rest
    else if start_pos < bs ∧ bs < max_end_pos ∧ max_end_pos < be then some bs
    else codeBlockLoop chunk_size tlen start_pos max_end_pos rest

/-- `TextChunker._find_best_break_point` (`text_chunker.py` lines
155-197).  `max(start_pos, max_end_pos - 200)` on Python ints equals the
truncated-subtraction form below because the other `max` arm is
`start_pos ≥ 0`. -/
def find_best_break_point (chunk_size : Nat) (t : List Char)
    (start_pos max_end_pos : Nat) : Nat :=
  match codeBlockLoop chunk_size t.length start_pos max_end_pos (code_block_matches t 0) with
  | some r => r
  | none =>
    let search_start := max start_pos (max_end_pos - 200)
    let search_text := slice t search_start max_end_pos
    match (para_matches search_text 0).getLast? with
    | some m => search_start + m.2
    | none =>
      match (sent_matches search_text 0).getLast? with
      | some m => search_start + m.2
      | none =>
        match rfindIdx search_text '\n' with
        | some j => search_start + j + 1
        | none =>
          let words := pySplit search_text
          if 1 < words.length then
            match words.getLast? with
            | some lw =>
              match rfindSub search_text lw with
              | some k =>
                if search_text.length / 2 < k then search_start + k
                else max_end_pos
              | none => max_end_pos
            | none => max_end_pos
          else max_end_pos

/-- `TextChunker._extract_semantic_chunk` (lines 136-153). -/
def extract_semantic_chunk (chunk_size : Nat) (t : List Char)
    (start_pos max_end_pos : Nat) : List Char × Nat :=
  if t.length ≤ start_pos then ([], start_pos)
  else if t.length ≤ max_end_pos then (t.drop start_pos, t.length)
  else
    let b := find_best_break_point chunk_size t start_pos max_end_pos
    (slice t start_pos b, b)

/-- A chunk dict as produced by `chunk_text`. -/
structure Chunk where
  text : List Char
  index : Nat
  start_char : Nat
  end_char : Nat
deriving DecidableEq, Repr

/-- The advance of `start_pos` at the bottom of the chunking loop:
`start_pos = max(actual_end_pos - overlap, start_pos + 1)` followed by
the safety reset `start_pos = actual_end_pos` when that is not ahead of
the chunk end.  (On Python ints `actual_end_pos - overlap` can be
negative, in which case the `max` picks `start_pos + 1`; truncated `Nat`
subtraction gives the same result because the other arm is positive.) -/
def nextStart (chunk_size overlap : Nat) (t : List Char) (s : Nat) : Nat :=
  let end_pos := min (s + chunk_size) t.length
  let ae := (extract_semantic_chunk chunk_size t s end_pos).2
  let s1 := max (ae - overlap) (s + 1)
  if ae ≤ s1 then ae else s1

/-- The `while start_pos < len(text)` loop of `chunk_text`, with an
explicit iteration budget.  Claim C10 shows a budget of `t.length`
always suffices, because every iteration strictly increases
`start_pos`. -/
def chunkLoop (chunk_size overlap : Nat) (t : List Char) :
    Nat → Nat → Nat → List Chunk
  | 0, _, _ => []
  | fuel + 1, s, idx =>
    if s < t.length then
      let end_pos := min (s + chunk_size) t.length
      let pr := extract_semantic_chunk chunk_size t s end_pos
      let stripped := pyStrip pr.1
      let emit : List Chunk := if stripped.isEmpty then [] else [⟨stripped, idx, s, pr.2⟩]
      let idx2 := if stripped.isEmpty then idx else idx + 1
      if t.length ≤ pr.2 then emit
      else emit ++ chunkLoop chunk_size overlap t fuel (nextStart chunk_size overlap t s) idx2
    else []

/-- `TextChunker.chunk_text` (lines 33-96).  The trailing
`_update_chunk_metadata` call only mutates `self._last_chunk_metadata`
and does not contribute to the return value. -/
def chunk_text (chunk_size overlap : Nat) (text : List Char) : List Chunk :=
  if text.isEmpty || (pyStrip text).isEmpty then []
  else
    let t := pyStrip text
    if t.length ≤ chunk_size then [⟨t, 0, 0, t.length⟩]
    else chunkLoop chunk_size overlap t t.length 0 0

/-- Proof auxiliary (not part of the embedding): the numeric value of a
decimal digit string, used to establish injectivity of `natRepr`. -/
def digitsVal (l : List Char) : Nat :=
  l.foldl (fun a c => 10 * a + (c.toNat - 48)) 0

/-! ## Concrete fixtures used by the per-claim theorems below -/

/-- A persisted job row that was `running` when the process died. -/
def c2_row : Job :=
  { id := "j1", job_type := "create_collection", collection_name := "c",
    status := JobStatus.running, created_at := 0, started_at := some 0 }

/-- A job that already completed. -/
def c3_job : Job :=
  { id := "job-1", job_type := "create_collection", collection_name := "c",
    status := JobStatus.completed, created_at := 0, started_at := some 1,
    completed_at := some 2 }

/-- A collection row before a reindex run. -/
def c4_row : CollectionRow := { name := "c", vault_path := "/v" }

/-- An active job whose type is none of the three the status derivation
knows. -/
def c5_job : Job :=
  { id := "j9", job_type := "incremental_update", collection_name := "c",
    status := JobStatus.running, created_at := 0 }

/-- A running reindex job for collection `c`. -/
def c1_runningJob : Job :=
  { id := "j1", job_type := "reindex_collection", collection_name := "c",
    status := JobStatus.running, created_at := 0, started_at := some 0 }

/-- The pending reindex job that `reindex_collection` with `force=True`
creates while `c1_runningJob` is still running. -/
def c1_pendingJob : Job :=
  { id := "j2", job_type := "reindex_collection", collection_name := "c",
    status := JobStatus.pending, created_at := 1 }

/-- A store hit at distance `3/2` (similarity `-1/2` before clamping). -/
def c7_hit : QueryHit := ⟨7, "d", [], [], 3/2⟩

/-- A store hit at distance `1/4`. -/
def c7_hitA : QueryHit := ⟨1, "a", [], [], 1/4⟩

/-- A store hit at distance `3/4`. -/
def c7_hitB : QueryHit := ⟨2, "b", [], [], 3/4⟩

/-- A store hit at distance `1/4`. -/
def c8_hitA : QueryHit := ⟨1, "a", [], [], 1/4⟩

/-- A store hit at distance `3/4`. -/
def c8_hitB : QueryHit := ⟨2, "b", [], [], 3/4⟩

/-- A manager state with one collection and one freshly issued deletion
token (issued at time 0, hence `expires_at = 300`). -/
def c9_state : MgrState :=
  { collections := [{ name := "c", vault_path := "/v" }],
    tokens := [("t", { collection_name := "c", expires_at := 300 })],
    jobs := [] }

/-! # Theorems -/

/-- Claim C2, counterexample: `JobQueue` startup (`__init__` running
`_init_job_db`) performs no crash recovery at all — a persisted row whose
status is `running` is still `running` afterwards, not demoted to
`queued`. -/
theorem c2_counterexample :
    (jobQueueInit 3 [c2_row]).table = [c2_row]
      ∧ c2_row.status = JobStatus.running
      ∧ (jobQueueInit 3 [c2_row]).table.countP
          (fun j => decide (j.status = JobStatus.queued)) = 0 :=
  ⟨rfl, rfl, rfl⟩

/-- Claim C2 (amended): on queue startup the persisted rows are left
entirely unchanged — `running` rows stay `running` (no demotion to
`queued`), `paused` rows are preserved, and terminal rows are untouched;
the in-memory tracking starts empty. -/
theorem c2_main (maxConc : Nat) (persisted : List Job) :
    (jobQueueInit maxConc persisted).table = persisted
      ∧ (jobQueueInit maxConc persisted).active_jobs = []
      ∧ ∀ st : JobStatus,
          ((jobQueueInit maxConc persisted).table.countP fun j => decide (j.status = st))
            = persisted.countP fun j => decide (j.status = st) :=
  ⟨rfl, rfl, fun _ => rfl⟩

/-- Claim C3, counterexample: `update_job_progress` applies any requested
status with no FSM check — it moves a `completed` job back to `running`,
so a transition attempt on a terminal job is not a no-op. -/
theorem c3_counterexample :
    (update_job_progress [c3_job] "job-1" "p" (some JobStatus.running) 9).map Job.status
        = [JobStatus.running]
      ∧ c3_job.status = JobStatus.completed := by
  exact ⟨rfl, rfl⟩

/-- Claim C3 (amended): `update_job_progress` sets any requested status
unconditionally for a tracked job (stamping `started_at` on a first
`running` and `completed_at` on a terminal status); only `cancel_job`
refuses to touch a job already in a terminal state. -/
theorem c3_main (j : Job) (p : String) (st : JobStatus) (now : Nat) :
    ((update_job_progress [j] j.id p (some st) now).map Job.status = [st])
      ∧ ((update_job_progress [j] j.id p none now).map Job.status = [j.status])
      ∧ (j.status.isTerminal = true → cancel_job [j] j.id now = (false, [j]))
      ∧ (st = JobStatus.running → j.started_at = none →
          (update_job_progress [j] j.id p (some st) now).map Job.started_at = [some now])
      ∧ (st.isTerminal = true →
          (update_job_progress [j] j.id p (some st) now).map Job.completed_at = [some now]) := by
  have hmap : ∀ (status : Option JobStatus),
      update_job_progress [j] j.id p status now = [applyProgressUpdate j p status now] := by
    intro status
    simp [update_job_progress]
  refine ⟨?_, ?_, ?_, ?_, ?_⟩
  · rw [hmap]
    simp only [applyProgressUpdate, List.map_cons, List.map_nil]
    split_ifs <;> rfl
  · rw [hmap]
    rfl
  · intro hterm
    simp [cancel_job, hterm]
  · intro hrun hstart
    rw [hmap]
    simp only [applyProgressUpdate, List.map_cons, List.map_nil]
    rw [if_pos ⟨hrun, hstart⟩]
  · intro hterm
    rw [hmap]
    simp only [applyProgressUpdate, List.map_cons, List.map_nil]
    have hne : ¬ (st = JobStatus.running ∧ j.started_at = none) := by
      rintro ⟨rfl, -⟩
      simp [JobStatus.isTerminal] at hterm
    rw [if_neg hne, if_pos hterm]

/-- Claim C3, witness for the amended theorem at a concrete job. -/
theorem c3_witness :
    cancel_job [c3_job] "job-1" 9 = (false, [c3_job])
      ∧ (update_job_progress [c3_job] "job-1" "p" (some JobStatus.failed) 9).map
          Job.completed_at = [some 9] := by
  have h := c3_main c3_job "p" JobStatus.failed 9
  exact ⟨h.2.2.1 rfl, h.2.2.2.2 rfl⟩

/-- Claim C4, counterexample: after a successful reindex that processed 0
documents while the vector store reports 5, the stored size is
`max(0, 5) * 2048 = 10240`, not `document_count × 2048 = 0` — the claimed
equation fails. -/
theorem c4_counterexample :
    (reindexSuccessUpdate c4_row 0 (some 5) 10).document_count = 0
      ∧ (reindexSuccessUpdate c4_row 0 (some 5) 10).size_bytes = 10240
      ∧ (reindexSuccessUpdate c4_row 0 (some 5) 10).size_bytes ≠
          (reindexSuccessUpdate c4_row 0 (some 5) 10).document_count * 2048 := by
  refine ⟨rfl, rfl, by decide⟩

/-- Claim C4 (amended): after a successful index or reindex the row has
`status = "active"`, `last_indexed_at` set, `health_status` equal to
`healthy`/`empty` according to `document_count > 0`, and
`size_bytes = max(document_count, store_count) × 2048` — which reduces to
the claimed `document_count × 2048` exactly when the store's health call
fails or reports a count not exceeding `document_count`. -/
theorem c4_main (row : CollectionRow) (dc : Nat) (cc : Option Nat) (now : Nat) :
    (reindexSuccessUpdate row dc cc now).status = "active"
      ∧ (reindexSuccessUpdate row dc cc now).last_indexed_at = some now
      ∧ (0 < dc → (reindexSuccessUpdate row dc cc now).health_status = "healthy")
      ∧ (dc = 0 → (reindexSuccessUpdate row dc cc now).health_status = "empty")
      ∧ (cc = none → (reindexSuccessUpdate row dc cc now).size_bytes = dc * 2048)
      ∧ (∀ a, cc = some a →
          (reindexSuccessUpdate row dc cc now).size_bytes = max dc a * 2048)
      ∧ (∀ a, cc = some a → a ≤ dc →
          (reindexSuccessUpdate row dc cc now).size_bytes = dc * 2048)
      ∧ createSuccessUpdate row dc cc now =
          { reindexSuccessUpdate row dc cc now with updated_at := row.updated_at } := by
  refine ⟨rfl, rfl, ?_, ?_, ?_, ?_, ?_, rfl⟩
  · intro h
    simp [reindexSuccessUpdate, h]
  · intro h
    simp [reindexSuccessUpdate, h]
  · intro h
    simp [reindexSuccessUpdate, calculate_collection_size, h]
  · intro a h
    simp [reindexSuccessUpdate, calculate_collection_size, h]
  · intro a h ha
    simp [reindexSuccessUpdate, calculate_collection_size, h, Nat.max_eq_left ha]

/-- Claim C4, witness for the amended theorem at a concrete update. -/
theorem c4_witness :
    (reindexSuccessUpdate c4_row 3 (some 2) 7).health_status = "healthy"
      ∧ (reindexSuccessUpdate c4_row 3 (some 2) 7).size_bytes = 3 * 2048 := by
  have h := c4_main c4_row 3 (some 2) 7
  exact ⟨h.2.2.1 (by decide), h.2.2.2.2.2.2.1 2 rfl (by decide)⟩

/-- Claim C5, counterexample: while a job of type `incremental_update` is
`running` for collection `c`, `_determine_collection_status` returns the
stored status (here `"active"`), not `"updating"` — the stored status is
surfaced although an active job exists. -/
theorem c5_counterexample :
    get_active_job_for_collection [c5_job] "c" = some c5_job
      ∧ determine_collection_status [c5_job] "c" "active" = "active"
      ∧ determine_collection_status [c5_job] "c" "active" ≠ "updating" := by
  refine ⟨rfl, rfl, by decide⟩

/-- Claim C5 (amended): the status returned by the read path maps an
active `create_collection` job to `indexing`, `reindex_collection` to
`reindexing` and `delete_collection` to `deleting`; with no active job,
or with an active job of any other type (there is no
`incremental_update → updating` case), it returns the stored status. -/
theorem c5_main (jobs : List Job) (c stored : String) :
    (get_active_job_for_collection jobs c = none →
        determine_collection_status jobs c stored = stored)
      ∧ ∀ j, get_active_job_for_collection jobs c = some j →
          j.collection_name = c ∧ j.status.isActive = true
            ∧ (j.job_type = "create_collection" →
                determine_collection_status jobs c stored = "indexing")
            ∧ (j.job_type = "reindex_collection" →
                determine_collection_status jobs c stored = "reindexing")
            ∧ (j.job_type = "delete_collection" →
                determine_collection_status jobs c stored = "deleting")
            ∧ (j.job_type ≠ "create_collection" → j.job_type ≠ "reindex_collection" →
                j.job_type ≠ "delete_collection" →
                determine_collection_status jobs c stored = stored) := by
  constructor
  · intro h
    simp [determine_collection_status, h]
  · intro j h
    have hp := List.find?_some h
    rw [Bool.and_eq_true, decide_eq_true_eq] at hp
    refine ⟨hp.1, hp.2, ?_, ?_, ?_, ?_⟩
    · intro ht
      simp [determine_collection_status, h, ht]
    · intro ht
      simp [determine_collection_status, h, ht]
    · intro ht
      simp [determine_collection_status, h, ht]
    · intro h1 h2 h3
      simp [determine_collection_status, h, h1, h2, h3]

/-- Claim C5, witness for the amended theorem at a concrete job list. -/
theorem c5_witness :
    c5_job.collection_name = "c" ∧ c5_job.status.isActive = true
      ∧ determine_collection_status [c5_job] "c" "error" = "error" := by
  have h := (c5_main [c5_job] "c" "error").2 c5_job (by rfl)
  exact ⟨h.1, h.2.1, h.2.2.2.2.2 (by decide) (by decide) (by decide)⟩

/-- Claim C9, counterexample: a deletion token is not single-use — after
a successful `delete_collection` the token is still stored, and the very
same token authorizes a second deletion. -/
theorem c9_counterexample :
    (delete_collection c9_state 0 "c" "t" "job1" 5).1 = Except.ok "job1"
      ∧ ((delete_collection c9_state 0 "c" "t" "job1" 5).2).tokens = c9_state.tokens
      ∧ (delete_collection ((delete_collection c9_state 0 "c" "t" "job1" 5).2)
            0 "c" "t" "job2" 6).1 = Except.ok "job2" := by
  exact ⟨rfl, rfl, rfl⟩

/-- Claim C9 (amended): token validation is fail-closed — it succeeds
only for a stored token of the same collection that is at most 300
seconds old (its stored expiry), and any failed validation makes
`delete_collection` raise without touching collections or jobs — but
tokens are not single-use: a successful deletion leaves the token map
unchanged. -/
theorem c9_main (st : MgrState) (now : ℚ) (c token jid : String) (ca : Nat) :
    ((validate_confirmation_token st now c token).1 = true →
        ∃ td, lookupToken st.tokens token = some td
          ∧ td.collection_name = c ∧ now ≤ td.expires_at)
      ∧ ((validate_confirmation_token st now c token).1 = true →
          (validate_confirmation_token st now c token).2 = st)
      ∧ ((validate_confirmation_token st now c token).1 = false →
          ∃ msg, (delete_collection st now c token jid ca).1 = Except.error msg
            ∧ ((delete_collection st now c token jid ca).2).collections = st.collections
            ∧ ((delete_collection st now c token jid ca).2).jobs = st.jobs)
      ∧ (collection_exists st c = false →
          delete_collection st now c token jid ca = (Except.error "not found", st))
      ∧ (∀ jid2 st2, delete_collection st now c token jid ca = (Except.ok jid2, st2) →
          st2.tokens = st.tokens) := by
  have hstate : ((validate_confirmation_token st now c token).2).collections = st.collections
      ∧ ((validate_confirmation_token st now c token).2).jobs = st.jobs
      ∧ ((validate_confirmation_token st now c token).1 = true →
          (validate_confirmation_token st now c token).2 = st) := by
    simp only [validate_confirmation_token]
    cases hl : lookupToken st.tokens token with
    | none => exact ⟨rfl, rfl, fun _ => rfl⟩
    | some td =>
      dsimp only
      by_cases h1 : td.collection_name ≠ c
      · rw [if_pos h1]
        exact ⟨rfl, rfl, fun _ => rfl⟩
      · rw [if_neg h1]
        by_cases h2 : now > td.expires_at
        · rw [if_pos h2]
          refine ⟨rfl, rfl, fun h => absurd h (by simp)⟩
        · rw [if_neg h2]
          exact ⟨rfl, rfl, fun _ => rfl⟩
  refine ⟨?_, hstate.2.2, ?_, ?_, ?_⟩
  · intro hv
    simp only [validate_confirmation_token] at hv
    rcases hl : lookupToken st.tokens token with - | td <;> rw [hl] at hv <;> dsimp only at hv
    · exact absurd hv (by simp)
    · by_cases h1 : td.collection_name ≠ c
      · rw [if_pos h1] at hv
        exact absurd hv (by simp)
      · rw [if_neg h1] at hv
        by_cases h2 : now > td.expires_at
        · rw [if_pos h2] at hv
          exact absurd hv (by simp)
        · exact ⟨td, rfl, not_not.mp h1, le_of_not_lt h2⟩
  · intro hv
    by_cases hex : collection_exists st c
    · have heq : delete_collection st now c token jid ca =
          (Except.error "invalid or expired confirmation token",
            (validate_confirmation_token st now c token).2) := by
        simp only [delete_collection]
        rw [if_neg (by simp [hex]), if_pos (by simp [hv])]
      exact ⟨_, by rw [heq], by rw [heq]; exact hstate.1, by rw [heq]; exact hstate.2.1⟩
    · have heq : delete_collection st now c token jid ca = (Except.error "not found", st) := by
        simp only [delete_collection]
        rw [if_pos (by simp [hex])]
      exact ⟨"not found", by rw [heq], by rw [heq], by rw [heq]⟩
  · intro hex
    simp only [delete_collection]
    rw [if_pos (by simp [hex])]
  · intro jid2 st2 h
    simp only [delete_collection] at h
    by_cases hex : collection_exists st c
    · rw [if_neg (by simp [hex])] at h
      by_cases hv : (validate_confirmation_token st now c token).1 = true
      · rw [if_neg (by simp [hv])] at h
        have h2 := congrArg Prod.snd h
        simp only at h2
        rw [← h2, hstate.2.2 hv]
      · rw [if_pos (by simpa using hv)] at h
        have h1 := congrArg Prod.fst h
        simp at h1
    · rw [if_pos (by simp [hex])] at h
      have h1 := congrArg Prod.fst h
      simp at h1

/-- Claim C9, witness for the amended theorem: a deletion request for an
unknown collection fails closed and leaves the state unchanged. -/
theorem c9_witness :
    delete_collection c9_state 0 "missing" "t" "j" 0 = (Except.error "not found", c9_state) := by
  have h := c9_main c9_state 0 "missing" "t" "j" 0
  exact h.2.2.2.1 (by decide)

/-- Claim C1, counterexample: with a `reindex_collection` job still
running for collection `c`, a forced reindex creates a second job, and
the dispatcher — whose selection query has no per-collection exclusion —
promotes it, leaving two `running` jobs for the same collection. -/
theorem c1_counterexample :
    reindex_collection 3 [c1_runningJob] "c" true "j2" 1
        = Except.ok [c1_runningJob, c1_pendingJob]
      ∧ get_next_jobs [c1_runningJob, c1_pendingJob] 3 = [c1_pendingJob]
      ∧ (process_next_jobs 3 7 [c1_runningJob, c1_pendingJob]).countP
          (fun j => decide (j.collection_name = "c")
            && decide (j.status = JobStatus.running)) = 2 := by
  exact ⟨rfl, by decide, by decide⟩

/-- Claim C1 (amended): the dispatcher's selection returns only
`pending`/`queued` jobs, at most as many as there are free slots, ordered
by `(priority DESC, created_at ASC)`; it applies no per-collection
exclusion, so the single-active-job invariant is not enforced by the
dispatcher. -/
theorem c1_main (table : List Job) (limit : Nat) :
    (∀ j ∈ get_next_jobs table limit,
        j.status = JobStatus.pending ∨ j.status = JobStatus.queued)
      ∧ (get_next_jobs table limit).length ≤ limit
      ∧ (get_next_jobs table limit).Sorted jobOrder := by
  refine ⟨?_, ?_, ?_⟩
  · intro j hj
    have h1 : j ∈ (table.filter fun j =>
        decide (j.status = JobStatus.pending ∨ j.status = JobStatus.queued)).insertionSort
          jobOrder := List.take_subset _ _ hj
    rw [List.mem_insertionSort] at h1
    exact of_decide_eq_true (List.mem_filter.mp h1).2
  · rw [get_next_jobs, List.length_take]
    exact min_le_left _ _
  · exact List.Pairwise.sublist (List.take_sublist _ _)
      (List.sorted_insertionSort jobOrder _)

/-- Claim C1, witness for the amended theorem at a concrete table. -/
theorem c1_witness :
    c1_pendingJob.status = JobStatus.pending ∨ c1_pendingJob.status = JobStatus.queued :=
  (c1_main [c1_runningJob, c1_pendingJob] 3).1 c1_pendingJob (by decide)

theorem digitChar_toNat_sub (n : Nat) (h : n < 10) : (Nat.digitChar n).toNat - 48 = n := by
  interval_cases n <;> rfl

theorem digitsVal_natReprAux :
    ∀ fuel n, n < fuel → digitsVal (natReprAux fuel n) = n := by
  intro fuel
  induction fuel with
  | zero => omega
  | succ fuel ih =>
    intro n hn
    rw [natReprAux]
    by_cases h : n < 10
    · rw [if_pos h]
      show 10 * 0 + ((Nat.digitChar n).toNat - 48) = n
      rw [digitChar_toNat_sub n h]
      omega
    · rw [if_neg h]
      have hd : n / 10 < fuel := by
        have := Nat.div_lt_self (n := n) (by omega) (by omega : 1 < 10)
        omega
      have hsplit : digitsVal (natReprAux fuel (n / 10) ++ [Nat.digitChar (n % 10)])
          = 10 * digitsVal (natReprAux fuel (n / 10)) + ((Nat.digitChar (n % 10)).toNat - 48) := by
        simp [digitsVal, List.foldl_append]
      rw [hsplit, ih (n / 10) hd, digitChar_toNat_sub (n % 10) (Nat.mod_lt _ (by omega))]
      omega

theorem digitsVal_natRepr (n : Nat) : digitsVal (natRepr n) = n :=
  digitsVal_natReprAux (n + 1) n (by omega)

theorem natRepr_inj {a b : Nat} (h : natRepr a = natRepr b) : a = b := by
  have := congrArg digitsVal h
  rwa [digitsVal_natRepr, digitsVal_natRepr] at this

/-- Claim C6, counterexample: the chunk id is not a hash of the relative
file path — it uses only the file's stem, so the distinct files
`a/note.md` and `b/note.md` of one collection produce the same id:
distinct files can collide. -/
theorem c6_counterexample :
    "a/note.md".data ≠ "b/note.md".data
      ∧ doc_id "v".data "a/note.md".data 0 = doc_id "v".data "b/note.md".data 0 := by
  exact ⟨by decide, by decide⟩

/-- Claim C6 (amended): the chunk id is the deterministic concatenation
`vault_name + "_" + stem(file) + "_" + chunk_index` — it depends only on
the collection name, the file's stem and the chunk index, so it is
identical across separate runs over the same file, and within one file
distinct chunk indices give distinct ids; but distinct files whose stems
coincide collide. -/
theorem c6_main (v p q : List Char) (i j : Nat) :
    (pyStem p = pyStem q → doc_id v p i = doc_id v q i)
      ∧ (doc_id v p i = doc_id v p j → i = j) := by
  constructor
  · intro h
    simp [doc_id, h]
  · intro h
    simp only [doc_id] at h
    exact natRepr_inj (List.append_cancel_left h)

/-- Claim C6, witness for the amended theorem: same-stem paths give the
same id at a concrete input. -/
theorem c6_witness :
    doc_id "v".data "a/note.md".data 3 = doc_id "v".data "b/note.md".data 3 :=
  (c6_main "v".data "a/note.md".data "b/note.md".data 3 3).1 (by decide)

/-! ### Query-path theorems (claims C7, C8) -/

/-- Claim C7, counterexample: the code does not clamp similarities.  At
`threshold = 0` with one hit at distance `3/2`, the spec's clamped
construction keeps the hit with score `0` while the code drops it; and
for a negative threshold the code returns a score outside `[0, 1]`. -/
theorem c7_counterexample :
    search_vault_process 1 0 none [c7_hit] = []
      ∧ searchProcessSpec 1 0 none [c7_hit] = [⟨7, "d", 0⟩]
      ∧ search_vault_process 1 (-1) none [c7_hit] = [⟨7, "d", -(1/2)⟩] := by
  refine ⟨?_, ?_, ?_⟩ <;>
    norm_num [search_vault_process, searchProcessSpec, keepHit, toResult,
      toResultClamped, c7_hit, List.filter, List.insertionSort]

/-- Claim C7 (amended): `search_vault` asks for `min(2·limit, 100)`
neighbours and converts distances by `s = 1 − d` with no clamping; it
drops results below the threshold, sorts descending and truncates to
`limit` — so every returned score is at least the threshold, is at most
`1` whenever distances are non-negative, and lies in `[0, 1]` whenever
additionally the threshold is non-negative. -/
theorem c7_main (limit : Nat) (threshold : ℚ) (tf : Option TagFilters)
    (hits : List QueryHit) :
    nResults limit = min (limit * 2) 100
      ∧ (search_vault_process limit threshold tf hits).length ≤ limit
      ∧ (∀ r ∈ search_vault_process limit threshold tf hits,
          threshold ≤ r.similarity_score)
      ∧ ((∀ h ∈ hits, 0 ≤ h.distance) →
          ∀ r ∈ search_vault_process limit threshold tf hits,
            r.similarity_score ≤ 1)
      ∧ (0 ≤ threshold → (∀ h ∈ hits, 0 ≤ h.distance) →
          ∀ r ∈ search_vault_process limit threshold tf hits,
            0 ≤ r.similarity_score ∧ r.similarity_score ≤ 1) := by
  have hmem : ∀ r ∈ search_vault_process limit threshold tf hits,
      ∃ h ∈ hits, keepHit threshold tf h = true ∧ r = toResult h := by
    intro r hr
    have h1 : r ∈ ((hits.filter (keepHit threshold tf)).map toResult).insertionSort
        scoreOrder := List.take_subset _ _ hr
    rw [List.mem_insertionSort] at h1
    obtain ⟨h, hh, rfl⟩ := List.mem_map.mp h1
    exact ⟨h, (List.mem_filter.mp hh).1, (List.mem_filter.mp hh).2, rfl⟩
  refine ⟨rfl, ?_, ?_, ?_, ?_⟩
  · rw [search_vault_process, List.length_take]
    exact min_le_left _ _
  · intro r hr
    obtain ⟨h, -, hk, rfl⟩ := hmem r hr
    exact of_decide_eq_true ((Bool.and_eq_true _ _).mp hk).1
  · intro hd r hr
    obtain ⟨h, hh, -, rfl⟩ := hmem r hr
    have h2 : 0 ≤ h.distance := hd h hh
    simp only [toResult]
    linarith
  · intro ht hd r hr
    obtain ⟨h, hh, hk, rfl⟩ := hmem r hr
    have h1 : threshold ≤ 1 - h.distance :=
      of_decide_eq_true ((Bool.and_eq_true _ _).mp hk).1
    have h2 : 0 ≤ h.distance := hd h hh
    simp only [toResult]
    constructor <;> linarith

/-- Claim C7, witness for the amended theorem at a concrete reply. -/
theorem c7_witness :
    ∀ r ∈ search_vault_process 2 (1/2) none [c7_hitA, c7_hitB],
      0 ≤ r.similarity_score ∧ r.similarity_score ≤ 1 := by
  have h := c7_main 2 (1/2) none [c7_hitA, c7_hitB]
  refine h.2.2.2.2 (by norm_num) ?_
  intro x hx
  fin_cases hx <;> norm_num [c7_hitA, c7_hitB]

theorem filter_orderedInsert_of_sorted (q : SearchResult → Bool) (x : SearchResult) :
    ∀ l : List SearchResult, l.Sorted scoreOrder →
      (l.orderedInsert scoreOrder x).filter q
        = if q x then (l.filter q).orderedInsert scoreOrder x else l.filter q := by
  intro l
  induction l with
  | nil =>
    intro _
    by_cases hq : q x <;> simp [hq, List.orderedInsert]
  | cons y ys ih =>
    intro hs
    have hys : ys.Sorted scoreOrder := (List.sorted_cons.mp hs).2
    have hrel : ∀ z ∈ ys, scoreOrder y z := (List.sorted_cons.mp hs).1
    by_cases hxy : scoreOrder x y
    · rw [List.orderedInsert, if_pos hxy]
      by_cases hq : q x
      · rw [if_pos hq, List.filter_cons_of_pos hq]
        cases hfc : (y :: ys).filter q with
        | nil => rfl
        | cons z rest =>
          have hz : z ∈ (y :: ys).filter q := by
            rw [hfc]
            exact List.mem_cons_self z rest
          have hz2 := (List.mem_filter.mp hz).1
          have hxz : scoreOrder x z := by
            rcases List.mem_cons.mp hz2 with rfl | hz3
            · exact hxy
            · exact IsTrans.trans x y z hxy (hrel z hz3)
          rw [List.orderedInsert, if_pos hxz]
      · rw [if_neg hq, List.filter_cons_of_neg hq]
    · rw [List.orderedInsert, if_neg hxy]
      by_cases hqy : q y
      · rw [List.filter_cons_of_pos hqy, List.filter_cons_of_pos hqy, ih hys]
        by_cases hq : q x
        · rw [if_pos hq, if_pos hq, List.orderedInsert, if_neg hxy]
        · rw [if_neg hq, if_neg hq]
      · rw [List.filter_cons_of_neg hqy, List.filter_cons_of_neg hqy, ih hys]

theorem filter_insertionSort (q : SearchResult → Bool) :
    ∀ l : List SearchResult,
      (l.insertionSort scoreOrder).filter q = (l.filter q).insertionSort scoreOrder := by
  intro l
  induction l with
  | nil => rfl
  | cons a l ih =>
    show (List.orderedInsert scoreOrder a (l.insertionSort scoreOrder)).filter q = _
    rw [filter_orderedInsert_of_sorted q a _ (List.sorted_insertionSort scoreOrder l), ih]
    by_cases hq : q a
    · rw [if_pos hq, List.filter_cons_of_pos hq]
      rfl
    · rw [if_neg hq, List.filter_cons_of_neg hq]

theorem filter_eq_takeWhile_of_sorted (t2 : ℚ) :
    ∀ L : List SearchResult, L.Sorted scoreOrder →
      L.filter (fun r => decide (t2 ≤ r.similarity_score))
        = L.takeWhile (fun r => decide (t2 ≤ r.similarity_score)) := by
  intro L
  induction L with
  | nil =>
    intro _
    rfl
  | cons x xs ih =>
    intro hs
    by_cases hq : t2 ≤ x.similarity_score
    · rw [List.filter_cons_of_pos (by simpa using hq),
        List.takeWhile_cons_of_pos (by simpa using hq),
        ih (List.sorted_cons.mp hs).2]
    · rw [List.filter_cons_of_neg (by simpa using hq),
        List.takeWhile_cons_of_neg (by simpa using hq)]
      rw [List.filter_eq_nil_iff]
      intro z hz
      have hle := (List.sorted_cons.mp hs).1 z hz
      simp only [decide_eq_true_eq]
      intro habs
      exact hq (le_trans habs hle)

theorem takeWhile_eq_take_aux {α : Type} (q : α → Bool) :
    ∀ L : List α, ∃ k, L.takeWhile q = L.take k := by
  intro L
  induction L with
  | nil => exact ⟨0, rfl⟩
  | cons x xs ih =>
    by_cases hq : q x
    · obtain ⟨k, hk⟩ := ih
      exact ⟨k + 1, by rw [List.takeWhile_cons_of_pos hq, hk]; rfl⟩
    · exact ⟨0, by rw [List.takeWhile_cons_of_neg (by simpa using hq)]; rfl⟩

/-- Claim C8: query threshold monotonicity — for a fixed store reply,
fixed limit and fixed tag filters, every result returned at the higher
threshold `t2 ≥ t1` is also returned at `t1` (the kept set shrinks to a
prefix of the same stable descending order). -/
theorem c8_main (limit : Nat) (tf : Option TagFilters) (hits : List QueryHit)
    (t1 t2 : ℚ) (hle : t1 ≤ t2) :
    ∀ r ∈ search_vault_process limit t2 tf hits,
      r ∈ search_vault_process limit t1 tf hits := by
  have hfilter : hits.filter (keepHit t2 tf)
      = (hits.filter (keepHit t1 tf)).filter
          (fun h => decide (t2 ≤ 1 - h.distance)) := by
    rw [List.filter_filter]
    apply List.filter_congr
    intro a _
    by_cases h2 : t2 ≤ 1 - a.distance
    · have h1 : t1 ≤ 1 - a.distance := le_trans hle h2
      simp [keepHit, h1, h2]
    · simp [keepHit, h2]
  have hmap : ((hits.filter (keepHit t1 tf)).filter
        (fun h => decide (t2 ≤ 1 - h.distance))).map toResult
      = ((hits.filter (keepHit t1 tf)).map toResult).filter
          (fun r => decide (t2 ≤ r.similarity_score)) := by
    induction hits.filter (keepHit t1 tf) with
    | nil => rfl
    | cons a l ih =>
      by_cases ha : t2 ≤ 1 - a.distance
      · rw [List.filter_cons_of_pos (by simpa using ha), List.map_cons, List.map_cons,
          List.filter_cons_of_pos (by simpa [toResult] using ha), ih]
      · rw [List.filter_cons_of_neg (by simpa using ha), List.map_cons,
          List.filter_cons_of_neg (by simpa [toResult] using ha), ih]
  intro r hr
  rw [search_vault_process, hfilter, hmap, ← filter_insertionSort,
    filter_eq_takeWhile_of_sorted t2 _ (List.sorted_insertionSort scoreOrder _)] at hr
  obtain ⟨k, hk⟩ := takeWhile_eq_take_aux
    (fun r => decide (t2 ≤ r.similarity_score))
    (((hits.filter (keepHit t1 tf)).map toResult).insertionSort scoreOrder)
  rw [hk, List.take_take] at hr
  rw [search_vault_process]
  have heq : min limit k = min (min limit k) limit := by omega
  rw [heq, ← List.take_take] at hr
  exact List.take_subset _ _ hr

/-- Claim C8, witness at a concrete reply and thresholds. -/
theorem c8_witness :
    (⟨1, "a", 3/4⟩ : SearchResult)
      ∈ search_vault_process 2 (1/4) none [c8_hitA, c8_hitB] := by
  apply c8_main 2 none [c8_hitA, c8_hitB] (1/4) (1/2) (by norm_num)
  norm_num [search_vault_process, keepHit, toResult, c8_hitA, c8_hitB,
    List.filter, List.insertionSort, List.orderedInsert, scoreOrder]

/-! ### Chunker progress lemmas (claim C10) -/

theorem codeBlockLoop_gt (cs tlen s me : Nat) :
    ∀ blocks r, codeBlockLoop cs tlen s me blocks = some r → s < r := by
  intro blocks
  induction blocks with
  | nil =>
    intro r h
    exact absurd h (by simp [codeBlockLoop])
  | cons head rest ih =>
    obtain ⟨bs, be⟩ := head
    intro r h
    rw [codeBlockLoop] at h
    by_cases g1 : bs ≤ s ∧ s < be ∧ be ≤ tlen
    · rw [if_pos g1] at h
      by_cases g2 : ((be - s : Nat) : ℚ) ≤ (cs : ℚ) * (12 / 10)
      · rw [if_pos g2] at h
        have := Option.some.inj h
        omega
      · rw [if_neg g2] at h
        exact ih r h
    · rw [if_neg g1] at h
      by_cases g3 : s < bs ∧ bs < me ∧ me < be
      · rw [if_pos g3] at h
        have := Option.some.inj h
        omega
      · rw [if_neg g3] at h
        exact ih r h

theorem para_matches_end (t : List Char) :
    ∀ n i, t.length - i ≤ n → ∀ m ∈ para_matches t i, 1 ≤ m.2 := by
  intro n
  induction n with
  | zero =>
    intro i hn m hm
    rw [para_matches, dif_neg (by omega : ¬ i < t.length)] at hm
    exact absurd hm (by simp)
  | succ n ih =>
    intro i hn m hm
    rw [para_matches] at hm
    by_cases hi : i < t.length
    · rw [dif_pos hi] at hm
      by_cases hnl : t.getD i ' ' = '\n'
      · rw [if_pos hnl] at hm
        dsimp only at hm
        cases hfind : lastNlBefore (t.drop (i + 1)) (wsRunLen (t.drop (i + 1))) with
        | some j =>
          rw [hfind] at hm
          dsimp only at hm
          rcases List.mem_cons.mp hm with rfl | hm2
          · omega
          · exact ih (i + 1 + j + 1) (by omega) m hm2
        | none =>
          rw [hfind] at hm
          dsimp only at hm
          exact ih (i + 1) (by omega) m hm
      · rw [if_neg hnl] at hm
        exact ih (i + 1) (by omega) m hm
    · rw [dif_neg hi] at hm
      exact absurd hm (by simp)

theorem sent_matches_end (t : List Char) :
    ∀ n i, t.length - i ≤ n → ∀ m ∈ sent_matches t i, 1 ≤ m.2 := by
  intro n
  induction n with
  | zero =>
    intro i hn m hm
    rw [sent_matches, dif_neg (by omega : ¬ i < t.length)] at hm
    exact absurd hm (by simp)
  | succ n ih =>
    intro i hn m hm
    rw [sent_matches] at hm
    by_cases hi : i < t.length
    · rw [dif_pos hi] at hm
      by_cases hp : isPunct (t.getD i ' ')
      · rw [if_pos hp] at hm
        by_cases hw : 0 < wsRunLen (t.drop (i + punctRunLen (t.drop i)))
        · rw [dif_pos hw] at hm
          rcases List.mem_cons.mp hm with rfl | hm2
          · omega
          · exact ih _ (by omega) m hm2
        · rw [dif_neg hw] at hm
          exact ih (i + 1) (by omega) m hm
      · rw [if_neg hp] at hm
        exact ih (i + 1) (by omega) m hm
    · rw [dif_neg hi] at hm
      exact absurd hm (by simp)

theorem find_best_break_point_gt (cs : Nat) (t : List Char) (s me : Nat)
    (hsme : s < me) : s < find_best_break_point cs t s me := by
  rw [find_best_break_point]
  cases hcode : codeBlockLoop cs t.length s me (code_block_matches t 0) with
  | some r =>
    dsimp only
    exact codeBlockLoop_gt cs t.length s me (code_block_matches t 0) r hcode
  | none =>
    dsimp only
    have hss : s ≤ max s (me - 200) := le_max_left _ _
    cases hpara : (para_matches (slice t (max s (me - 200)) me) 0).getLast? with
    | some m =>
      dsimp only
      have hmem := List.mem_of_mem_getLast? hpara
      have := para_matches_end (slice t (max s (me - 200)) me)
        ((slice t (max s (me - 200)) me).length) 0 (by omega) m hmem
      omega
    | none =>
      dsimp only
      cases hsent : (sent_matches (slice t (max s (me - 200)) me) 0).getLast? with
      | some m =>
        dsimp only
        have hmem := List.mem_of_mem_getLast? hsent
        have := sent_matches_end (slice t (max s (me - 200)) me)
          ((slice t (max s (me - 200)) me).length) 0 (by omega) m hmem
        omega
      | none =>
        dsimp only
        cases hnl : rfindIdx (slice t (max s (me - 200)) me) '\n' with
        | some j =>
          dsimp only
          omega
        | none =>
          dsimp only
          by_cases hwords : 1 < (pySplit (slice t (max s (me - 200)) me)).length
          · rw [if_pos hwords]
            cases hlast : (pySplit (slice t (max s (me - 200)) me)).getLast? with
            | some lw =>
              dsimp only
              cases hfind : rfindSub (slice t (max s (me - 200)) me) lw with
              | some k =>
                dsimp only
                by_cases hk : (slice t (max s (me - 200)) me).length / 2 < k
                · rw [if_pos hk]
                  omega
                · rw [if_neg hk]
                  exact hsme
              | none =>
                exact hsme
            | none =>
              exact hsme
          · rw [if_neg hwords]
            exact hsme

theorem extract_semantic_chunk_pos (cs : Nat) (t : List Char) (s : Nat)
    (hcs : 1 ≤ cs) (hs : s < t.length) :
    s < (extract_semantic_chunk cs t s (min (s + cs) t.length)).2 := by
  rw [extract_semantic_chunk, if_neg (by omega : ¬ t.length ≤ s)]
  by_cases hme : t.length ≤ min (s + cs) t.length
  · rw [if_pos hme]
    exact hs
  · rw [if_neg hme]
    exact find_best_break_point_gt cs t s _ (by omega)

theorem nextStart_gt (cs ov : Nat) (t : List Char) (s : Nat)
    (hcs : 1 ≤ cs) (hs : s < t.length) : s < nextStart cs ov t s := by
  have hae := extract_semantic_chunk_pos cs t s hcs hs
  simp only [nextStart]
  by_cases hcase : (extract_semantic_chunk cs t s (min (s + cs) t.length)).2
      ≤ max ((extract_semantic_chunk cs t s (min (s + cs) t.length)).2 - ov) (s + 1)
  · rw [if_pos hcase]
    exact hae
  · rw [if_neg hcase]
    have := le_max_right ((extract_semantic_chunk cs t s (min (s + cs) t.length)).2 - ov) (s + 1)
    omega

theorem chunkLoop_stop (cs ov : Nat) (t : List Char) (s idx : Nat) (hs : t.length ≤ s) :
    ∀ f, chunkLoop cs ov t f s idx = [] := by
  intro f
  cases f with
  | zero => rfl
  | succ f =>
    rw [chunkLoop, if_neg (by omega : ¬ s < t.length)]

theorem chunkLoop_fuel_eq (cs ov : Nat) (t : List Char) (hcs : 1 ≤ cs) :
    ∀ n s idx f g, t.length - s ≤ n → t.length - s ≤ f → t.length - s ≤ g →
      chunkLoop cs ov t f s idx = chunkLoop cs ov t g s idx := by
  intro n
  induction n with
  | zero =>
    intro s idx f g hn hf hg
    rw [chunkLoop_stop cs ov t s idx (by omega) f, chunkLoop_stop cs ov t s idx (by omega) g]
  | succ n ih =>
    intro s idx f g hn hf hg
    by_cases hs : s < t.length
    · obtain ⟨f2, rfl⟩ : ∃ f2, f = f2 + 1 := ⟨f - 1, by omega⟩
      obtain ⟨g2, rfl⟩ : ∃ g2, g = g2 + 1 := ⟨g - 1, by omega⟩
      rw [chunkLoop, chunkLoop, if_pos hs, if_pos hs]
      by_cases hend : t.length ≤ (extract_semantic_chunk cs t s (min (s + cs) t.length)).2
      · rw [if_pos hend, if_pos hend]
      · rw [if_neg hend, if_neg hend]
        have hns := nextStart_gt cs ov t s hcs hs
        congr 1
        exact ih (nextStart cs ov t s) _ f2 g2 (by omega) (by omega) (by omega)
    · rw [chunkLoop_stop cs ov t s idx (by omega) _, chunkLoop_stop cs ov t s idx (by omega) _]

/-- Claim C10: the chunker is total — for any positive chunk size, every
loop iteration strictly increases `start_pos`, so an iteration budget of
the (stripped) text's length is always sufficient; empty or
whitespace-only input yields no chunks; and non-empty stripped input of
length at most `chunk_size` yields exactly one chunk carrying the
stripped text with index 0, `start_char = 0` and `end_char` the stripped
length. -/
theorem c10_main (cs ov : Nat) (text : List Char) (hcs : 1 ≤ cs) :
    (∀ s, s < (pyStrip text).length → s < nextStart cs ov (pyStrip text) s)
      ∧ (∀ extra, chunkLoop cs ov (pyStrip text) ((pyStrip text).length + extra) 0 0
          = chunkLoop cs ov (pyStrip text) (pyStrip text).length 0 0)
      ∧ (pyStrip text = [] → chunk_text cs ov text = [])
      ∧ ((pyStrip text).length ≠ 0 → (pyStrip text).length ≤ cs →
          chunk_text cs ov text = [⟨pyStrip text, 0, 0, (pyStrip text).length⟩]) := by
  refine ⟨?_, ?_, ?_, ?_⟩
  · intro s hsl
    exact nextStart_gt cs ov (pyStrip text) s hcs hsl
  · intro extra
    exact chunkLoop_fuel_eq cs ov (pyStrip text) hcs ((pyStrip text).length) 0 0 _ _
      (by omega) (by omega) (by omega)
  · intro hnil
    have hcond : (text.isEmpty || (pyStrip text).isEmpty) = true := by
      rw [hnil]
      simp
    rw [chunk_text, if_pos hcond]
  · intro hne hlen
    have hcond : ¬ ((text.isEmpty || (pyStrip text).isEmpty) = true) := by
      simp only [Bool.or_eq_true, List.isEmpty_iff]
      rintro (rfl | hstrip)
      · exact hne (by simp [pyStrip])
      · rw [hstrip] at hne
        exact hne rfl
    rw [chunk_text, if_neg hcond, if_pos hlen]

/-- Claim C10, witness: the default chunker configuration on a short
concrete text returns the single stripped chunk. -/
theorem c10_witness :
    chunk_text 1000 200 " hi there ".data
      = [⟨pyStrip " hi there ".data, 0, 0, (pyStrip " hi there ".data).length⟩] := by
  have h := c10_main 1000 200 " hi there ".data (by omega)
  exact h.2.2.2 (by decide) (by decide)

end VaultMind
